import Mathlib

/-!
Verification of the tkGAME generation/validation engine specification
against the repository sources.

The physics definitions below are shallow embeddings of
`lib/widgets/tkgame_physics.py`.  The sudoku-engine definitions are
modelled from the specification document, because the repository only
ships the test harness `lib/widgets/sudoku_matrix_tests.py` for that
module; each such definition carries a doc comment saying so.

Python floats are modelled as rationals: every float operation used by
the embedded code (abs, min, max, comparison, integer truncation,
division by constants) is exact on the represented values.
-/

namespace TkGame

/-! ### Physics (`tkgame_physics.py`) -/

/-- A Python value as far as the `Physics` class inspects one: either a
callable (here: a function of the three keyword arguments `dx`, `dy`,
`dt` that the computation loop passes) or a non-callable value such as
`None`, a number or a string. -/
inductive PyValue where
  | noneVal : PyValue
  | numVal : ℚ → PyValue
  | strVal : String → PyValue
  | funcVal : (ℚ → ℚ → ℚ → ℚ) → PyValue

/-- Python's `callable(value)` test restricted to the values above. -/
def PyValue.callable : PyValue → Bool
  | .funcVal _ => true
  | _ => false

/-- Failure raised when a non-callable object is called. -/
inductive CallFailure where
  | notCallable : CallFailure
deriving DecidableEq

/-- Calling a `PyValue` with the keyword arguments `dx`, `dy`, `dt`;
a non-callable value fails. -/
def PyValue.invoke : PyValue → ℚ → ℚ → ℚ → Except CallFailure ℚ
  | .funcVal f, dx, dy, dt => .ok (f dx dy dt)
  | _, _, _, _ => .error .notCallable

/-- Python `int(value)` on a float: truncation toward zero. -/
def pyInt (q : ℚ) : ℤ :=
  if 0 ≤ q then ⌊q⌋ else ⌈q⌉

/-- The value stored by the `friction` property setter:
`min(1.0, abs(float(value)))`. -/
def set_friction_val (value : ℚ) : ℚ := min 1 |value|

/-- The value stored by the `framerate` property setter:
`max(1, min(20, int(value)))`. -/
def set_framerate_val (value : ℚ) : ℕ :=
  (max 1 (min 20 (pyInt value))).toNat

/-- The state of a `Physics` instance (the animation pool, which is
thread/GUI machinery, is not modelled). -/
structure Physics where
  started : Bool
  velocity : ℚ × ℚ
  friction : ℚ
  gravity : ℚ
  framerate : ℕ
  delay : ℕ
  dt : ℚ
  update_callback : PyValue

/-- The `friction` property setter. -/
def Physics.set_friction (p : Physics) (value : ℚ) : Physics :=
  { p with friction := set_friction_val value }

/-- The `framerate` property setter: stores the clamped integer value
and the derived `delay` (milliseconds, floor division) and `dt`
(seconds). -/
def Physics.set_framerate (p : Physics) (value : ℚ) : Physics :=
  let f := set_framerate_val value
  { p with framerate := f, delay := 1000 / f, dt := ((1000 / f : ℕ) : ℚ) / 1000 }

/-- The `update_callback` property setter: keeps a callable value and
replaces anything else with the no-op `lambda *a, **k: None`. -/
def Physics.set_update_callback (p : Physics) (value : PyValue) : Physics :=
  if value.callable then { p with update_callback := value }
  else { p with update_callback := .funcVal (fun _ _ _ => 0) }

/-- The `Physics` constructor: `velocity = None` (which the velocity
setter converts to the zero vector), `friction = 0.0`,
`gravity = kw.get("gravity") or 9.8`,
`framerate = kw.get("framerate") or 20`,
`update_callback = kw.get("on_frame_update")`; every assignment runs
through the corresponding property setter. -/
def Physics.init (gravity framerate : Option ℚ) (on_frame_update : Option PyValue) :
    Physics :=
  let base : Physics :=
    ⟨false, (0, 0), 0, 0, 1, 1000, 1, .noneVal⟩
  let p1 := base.set_friction 0
  let p2 := { p1 with gravity := match gravity with
                | some g => if g = 0 then 9.8 else g
                | none => 9.8 }
  let p3 := p2.set_framerate (match framerate with
                | some f => if f = 0 then 20 else f
                | none => 20)
  p3.set_update_callback (on_frame_update.getD .noneVal)

/-- A `Physics` instance constructed with no keyword arguments, as the
animation layer does. -/
def phys0 : Physics := Physics.init none none none

/-! ### Error taxonomy of the sudoku engine -/

/-- Modelled from the spec: the ConfigurationError taxonomy entry —
invalid shuffle level or inconsistent grid dimensions. -/
inductive ConfigError where
  | badLevel : ConfigError
  | badDims : ConfigError
deriving DecidableEq

/-- Modelled from the spec: the RangeError taxonomy entry —
out-of-bounds index access. -/
inductive RangeError where
  | outOfRange : RangeError
deriving DecidableEq

/-! ### CellIndex -/

/-- Modelled from the spec: CellIndex, linear position to coordinates —
given `columns` and `i` in `[0, N^2)` returns
`(row, column) = (i / columns, i % columns)`; out-of-range input fails
with a RangeError. -/
def cell_index_coords (columns i : ℕ) : Except RangeError (ℕ × ℕ) :=
  if i < columns * columns then .ok (i / columns, i % columns)
  else .error .outOfRange

/-- Modelled from the spec: CellIndex, coordinates to linear position —
given in-range `(row, column)` returns `i = row * columns + column`;
out-of-range input fails with a RangeError. -/
def cell_index_linear (columns row column : ℕ) : Except RangeError ℕ :=
  if row < columns ∧ column < columns then .ok (row * columns + column)
  else .error .outOfRange

/-! ### GridVerifier -/

/-- Modelled from the spec: the non-empty subset of a row/column/box,
where the empty ("unrevealed"/unset) sentinel is 0. -/
def nonEmptyVals (vs : List ℕ) : List ℕ :=
  vs.filter (fun v => decide (v ≠ 0))

/-- Modelled from the spec: the check applied to one row, column or box
of side `n`: the non-empty values must be duplicate-free, and when the
unit has no empty cell its values must be exactly the symbol set
`{1..n}` (with no repeats, a duplicate-free length-`n` list of values
in `[1, n]` is such a set). -/
def unit_ok (n : ℕ) (vs : List ℕ) : Bool :=
  decide (nonEmptyVals vs).Nodup &&
    (decide ((nonEmptyVals vs).length < vs.length) ||
      (nonEmptyVals vs).all (fun v => decide (1 ≤ v) && decide (v ≤ n)))

/-- Modelled from the spec: grid dimension consistency — the grid is
square and no row is ragged. -/
def grid_dims_ok (g : List (List ℕ)) : Bool :=
  g.all (fun row => row.length == g.length)

/-- Modelled from the spec: the N columns of a raw grid. -/
def grid_cols (g : List (List ℕ)) : List (List ℕ) :=
  (List.range g.length).map (fun j => g.map (fun row => row.getD j 0))

/-- Downward search for the largest `k ≤ m` with `k * k ≤ n`. -/
def sqrt_aux (n : ℕ) : ℕ → ℕ
  | 0 => 0
  | m + 1 => if (m + 1) * (m + 1) ≤ n then m + 1 else sqrt_aux n m

/-- Integer square root (the box side `b = √N` of a grid of side `N`). -/
def int_sqrt (n : ℕ) : ℕ := sqrt_aux n n

/-- Modelled from the spec: the N boxes of a raw grid of side `N` with
box side `b = √N`; box `k` holds the cells of rows
`k / b * b .. k / b * b + b - 1` and columns
`k % b * b .. k % b * b + b - 1`, listed in row-major order. -/
def grid_boxes (g : List (List ℕ)) : List (List ℕ) :=
  (List.range g.length).map (fun k =>
    (List.range g.length).map (fun t =>
      (g.getD (k / int_sqrt g.length * int_sqrt g.length + t / int_sqrt g.length)
          []).getD
        (k % int_sqrt g.length * int_sqrt g.length + t % int_sqrt g.length) 0))

/-- Modelled from the spec: the N rows, N columns and N boxes a grid is
checked over. -/
def grid_units (g : List (List ℕ)) : List (List ℕ) :=
  g ++ grid_cols g ++ grid_boxes g

/-- Modelled from the spec: `is_correct_grid(grid)` — raises a
ConfigurationError when the dimensions are inconsistent, and otherwise
returns whether every row, column and box passes the unit check. -/
def is_correct_grid (g : List (List ℕ)) : Except ConfigError Bool :=
  if grid_dims_ok g = true then .ok ((grid_units g).all (unit_ok g.length))
  else .error .badDims

/-! ### LatinSquareBuilder -/

/-- Modelled from the spec: `euler_latin_square(n)` — the canonical
cyclic Latin square with `grid[r][c] = ((r + c) mod n) + 1`. -/
def euler_latin_square (n : ℕ) : List (List ℕ) :=
  (List.range n).map (fun r => (List.range n).map (fun c => (r + c) % n + 1))

/-- Modelled from the spec: the LERS2 construction as a function grid
for box side `b` (side `n = b * b`): row `r` is the cyclic row shifted
by `b * (r mod b) + r div b`, the standard shifted-rows base Sudoku
grid, which satisfies the Latin-square invariant plus the box
constraint. -/
def lers2F (b : ℕ) : ℕ → ℕ → ℕ :=
  fun r c => (b * (r % b) + r / b + c) % (b * b) + 1

/-- Materializes a function grid of side `n` as a raw row-major grid. -/
def toLists (n : ℕ) (g : ℕ → ℕ → ℕ) : List (List ℕ) :=
  (List.range n).map (fun r => (List.range n).map (fun c => g r c))

/-- Modelled from the spec: `lers2_sudoku_grid(n)` — the LERS2 raw grid
of side `n` (supported `n` is a perfect square ≥ 4). -/
def lers2_sudoku_grid (n : ℕ) : List (List ℕ) :=
  toLists n (lers2F (int_sqrt n))

/-! ### ShuffleEngine -/

/-- Modelled from the spec: the transpose primitive on function grids. -/
def transposeF (g : ℕ → ℕ → ℕ) : ℕ → ℕ → ℕ :=
  fun r c => g c r

/-- Modelled from the spec: a row-permutation primitive — row `r` of
the output is row `p r` of the input. -/
def rowMapF (p : ℕ → ℕ) (g : ℕ → ℕ → ℕ) : ℕ → ℕ → ℕ :=
  fun r c => g (p r) c

/-- Modelled from the spec: a column-permutation primitive — column `c`
of the output is column `p c` of the input. -/
def colMapF (p : ℕ → ℕ) (g : ℕ → ℕ → ℕ) : ℕ → ℕ → ℕ :=
  fun r c => g r (p c)

/-- Modelled from the spec: the symbol-relabeling primitive — every
value is mapped through a bijection `s` of the symbol set. -/
def relabelF (s : ℕ → ℕ) (g : ℕ → ℕ → ℕ) : ℕ → ℕ → ℕ :=
  fun r c => s (g r c)

/-- Modelled from the spec: the whole-band (respectively whole-stack)
rotation index map — band `q` moves to band `(q + 1) mod b`, offsets
inside the band are kept. -/
def bandRot (b r : ℕ) : ℕ :=
  (r / b + 1) % b * b + r % b

/-- Modelled from the spec: the rows-within-a-band (respectively
columns-within-a-stack) rotation index map — inside every band the
rows rotate by one. -/
def innerRot (b r : ℕ) : ℕ :=
  r / b * b + (r % b + 1) % b

/-- Modelled from the spec: the index reversal used by the 90/180/270
degree rotation primitives. -/
def revIdx (n r : ℕ) : ℕ :=
  n - 1 - r

/-- Modelled from the spec: the cyclic relabeling bijection of the
symbol set `{1..n}`: `v` maps to `v mod n + 1`. -/
def cycRelabel (n v : ℕ) : ℕ :=
  v % n + 1

/-- Modelled from the spec: the ten indexed shuffle primitives of the
engine for box side `b` (side `n = b * b`): identity, row rotation
within bands, column rotation within stacks, band rotation, stack
rotation, transpose, symbol relabeling, and the 90/180/270 degree
rotations. -/
def prim (b : ℕ) : ℕ → (ℕ → ℕ → ℕ) → (ℕ → ℕ → ℕ)
  | 1 => rowMapF (innerRot b)
  | 2 => colMapF (innerRot b)
  | 3 => rowMapF (bandRot b)
  | 4 => colMapF (bandRot b)
  | 5 => transposeF
  | 6 => relabelF (cycRelabel (b * b))
  | 7 => fun g => colMapF (revIdx (b * b)) (transposeF g)
  | 8 => fun g => rowMapF (revIdx (b * b)) (colMapF (revIdx (b * b)) g)
  | 9 => fun g => rowMapF (revIdx (b * b)) (transposeF g)
  | _ => id

/-- Modelled from the spec: the algorithm sequence associated with
level `L` — the composition of the primitives `0..L`, so level `L`
layers one more primitive on level `L - 1`. -/
def algo_shuffle (b level : ℕ) (g : ℕ → ℕ → ℕ) : ℕ → ℕ → ℕ :=
  (List.range (level + 1)).foldl (fun h k => prim b k h) g

/-- Validity of a function grid of box side `b`: every value is a
symbol of `{1..b*b}`, and values repeat in no row, no column and no
box.  This is the Sudoku validity invariant the specification states
for GridVerifier. -/
def ValidF (b : ℕ) (g : ℕ → ℕ → ℕ) : Prop :=
  (∀ r c, r < b * b → c < b * b → 1 ≤ g r c ∧ g r c ≤ b * b) ∧
  (∀ r c₁ c₂, r < b * b → c₁ < b * b → c₂ < b * b →
    g r c₁ = g r c₂ → c₁ = c₂) ∧
  (∀ c r₁ r₂, c < b * b → r₁ < b * b → r₂ < b * b →
    g r₁ c = g r₂ c → r₁ = r₂) ∧
  (∀ bi bj u₁ v₁ u₂ v₂, bi < b → bj < b → u₁ < b → v₁ < b → u₂ < b → v₂ < b →
    g (bi * b + u₁) (bj * b + v₁) = g (bi * b + u₂) (bj * b + v₂) →
    u₁ = u₂ ∧ v₁ = v₂)

/-! ### SudokuMatrix -/

/-- Modelled from the spec: a Cell — coordinates, value and the
revealed flag. -/
structure Cell where
  row : ℕ
  column : ℕ
  value : ℕ
  revealed : Bool
deriving DecidableEq

/-- The default cell used when indexing outside the collection. -/
def defaultCell : Cell := ⟨0, 0, 0, false⟩

/-- Modelled from the spec: the SudokuMatrix state — the box side
(`box_size = √N`, stored so that the side is a perfect square by
construction) and the ordered cell collection. -/
structure SudokuMatrix where
  box_size : ℕ
  cells : List Cell
deriving DecidableEq

/-- Modelled from the spec: the `columns` accessor, the side length
`N = box_size ^ 2`. -/
def SudokuMatrix.columns (m : SudokuMatrix) : ℕ :=
  m.box_size * m.box_size

/-- Modelled from the spec: `SudokuMatrix()` — an uninitialized matrix;
the default box side 3 gives the default side length 9. -/
def SudokuMatrix.new (b : ℕ := 3) : SudokuMatrix :=
  ⟨b, []⟩

/-- Modelled from the spec: storing a function grid of side `n` as the
cell collection, in row-major storage order; the cell at linear index
`i` receives the coordinates `(i / n, i % n)` and is revealed (full
solution state). -/
def toCells (n : ℕ) (g : ℕ → ℕ → ℕ) : List Cell :=
  (List.range (n * n)).map (fun i => ⟨i / n, i % n, g (i / n) (i % n), true⟩)

/-- The function grid currently held by the cell collection. -/
def SudokuMatrix.gridF (m : SudokuMatrix) : ℕ → ℕ → ℕ :=
  fun r c => (m.cells.getD (r * m.columns + c) defaultCell).value

/-- The outcome of a mutating call: the state of the object after the
call, plus the exception surfaced, if any. -/
structure GenResult where
  matrix : SudokuMatrix
  error : Option ConfigError
deriving DecidableEq

/-- Modelled from the spec: `generate(level)` — fails with a
ConfigurationError when the level is outside `[0, 9]` (leaving the
state untouched), and otherwise builds the LERS2 base grid, applies
the shuffle sequence of the requested level and stores the result as
the revealed cell collection. -/
def SudokuMatrix.generate (m : SudokuMatrix) (level : ℤ) : GenResult :=
  if 0 ≤ level ∧ level ≤ 9 then
    ⟨⟨m.box_size,
      toCells m.columns (algo_shuffle m.box_size level.toNat (lers2F m.box_size))⟩,
      none⟩
  else ⟨m, some .badLevel⟩

/-- Modelled from the spec: one shuffle primitive applied directly to
the matrix (the `algo_shuffle_<k>` methods the test harness calls):
the current values are transformed and stored back in row-major
order. -/
def SudokuMatrix.apply_shuffle (m : SudokuMatrix) (k : ℕ) : SudokuMatrix :=
  ⟨m.box_size, toCells m.columns (prim m.box_size k m.gridF)⟩

/-- Helper for `reveal`: walks the collection setting each cell's
revealed flag from its linear index, touching nothing else. -/
def setRevealed (keep : ℕ → Bool) : ℕ → List Cell → List Cell
  | _, [] => []
  | i, c :: rest => { c with revealed := keep i } :: setRevealed keep (i + 1) rest

/-- Modelled from the spec: `reveal()` — keeps a subset of cells
revealed and hides the rest by clearing their revealed flags; the
selection policy is configuration, abstracted here as the predicate
`keep` on linear indices.  Coordinates and stored values are not
touched. -/
def SudokuMatrix.reveal (m : SudokuMatrix) (keep : ℕ → Bool) : SudokuMatrix :=
  ⟨m.box_size, setRevealed keep 0 m.cells⟩

/-- Modelled from the spec: the raw grid of underlying stored values of
the matrix (hidden cells keep their stored value). -/
def SudokuMatrix.values_grid (m : SudokuMatrix) : List (List ℕ) :=
  (List.range m.columns).map (fun r =>
    (List.range m.columns).map (fun c =>
      (m.cells.getD (r * m.columns + c) defaultCell).value))

/-- Modelled from the spec: `verify_correct()` — delegates to
GridVerifier over the current cell grid's underlying values. -/
def SudokuMatrix.verify_correct (m : SudokuMatrix) : Bool :=
  match is_correct_grid m.values_grid with
  | .ok b => b
  | .error _ => false

/-! ### Arithmetic helpers -/

theorem parts_lt {b bi u : ℕ} (hbi : bi < b) (hu : u < b) :
    bi * b + u < b * b :=
  calc bi * b + u < bi * b + b := Nat.add_lt_add_left hu _
    _ = (bi + 1) * b := by ring
    _ ≤ b * b := Nat.mul_le_mul_right b hbi

theorem parts_lt' {b x y : ℕ} (hx : x < b) (hy : y < b) :
    b * x + y < b * b := by
  rw [Nat.mul_comm b x]
  exact parts_lt hx hy

theorem parts_div {b bi u : ℕ} (hb : 0 < b) (hu : u < b) :
    (bi * b + u) / b = bi := by
  rw [Nat.mul_comm bi b, Nat.mul_add_div hb, Nat.div_eq_of_lt hu, Nat.add_zero]

theorem parts_mod {b u : ℕ} (bi : ℕ) (hu : u < b) :
    (bi * b + u) % b = u :=
  Nat.mul_add_mod_of_lt hu

theorem div_lt_b {b r : ℕ} (hb : 0 < b) (hr : r < b * b) : r / b < b :=
  (Nat.div_lt_iff_lt_mul hb).mpr hr

theorem mod_cancel_left {n a x y : ℕ} (hx : x < n) (hy : y < n)
    (h : (a + x) % n = (a + y) % n) : x = y := by
  have h' : x ≡ y [MOD n] := Nat.ModEq.add_left_cancel' a h
  rwa [Nat.ModEq, Nat.mod_eq_of_lt hx, Nat.mod_eq_of_lt hy] at h'

theorem digit_inj {b s₁ q₁ s₂ q₂ : ℕ} (hb : 0 < b) (hq₁ : q₁ < b) (hq₂ : q₂ < b)
    (h : b * s₁ + q₁ = b * s₂ + q₂) : s₁ = s₂ ∧ q₁ = q₂ := by
  have d1 : (b * s₁ + q₁) / b = s₁ := by
    rw [Nat.mul_add_div hb, Nat.div_eq_of_lt hq₁, Nat.add_zero]
  have d2 : (b * s₂ + q₂) / b = s₂ := by
    rw [Nat.mul_add_div hb, Nat.div_eq_of_lt hq₂, Nat.add_zero]
  have hs : s₁ = s₂ := by rw [← d1, ← d2, h]
  subst hs
  exact ⟨rfl, Nat.add_left_cancel h⟩

theorem eq_of_div_mod_eq {b r₁ r₂ : ℕ} (hdiv : r₁ / b = r₂ / b)
    (hmod : r₁ % b = r₂ % b) : r₁ = r₂ :=
  calc r₁ = b * (r₁ / b) + r₁ % b := (Nat.div_add_mod _ _).symm
    _ = b * (r₂ / b) + r₂ % b := by rw [hdiv, hmod]
    _ = r₂ := Nat.div_add_mod _ _

theorem sqrt_aux_spec (b : ℕ) : ∀ m, b ≤ m → sqrt_aux (b * b) m = b := by
  intro m
  induction m with
  | zero =>
    intro hm
    have hb0 : b = 0 := Nat.le_zero.mp hm
    subst hb0
    rfl
  | succ m ih =>
    intro hm
    show (if (m + 1) * (m + 1) ≤ b * b then m + 1 else sqrt_aux (b * b) m) = b
    rcases Nat.eq_or_lt_of_le hm with he | hlt
    · subst he
      rw [if_pos (Nat.le_refl _)]
    · have hm' : b ≤ m := by omega
      rw [if_neg (Nat.not_le.mpr (Nat.mul_self_lt_mul_self hlt)), ih hm']

theorem int_sqrt_sq (b : ℕ) : int_sqrt (b * b) = b := by
  cases b with
  | zero => rfl
  | succ b' =>
    exact sqrt_aux_spec _ _ (Nat.le_mul_of_pos_left _ (Nat.succ_pos b'))

/-! ### Validity preservation of the shuffle primitives -/

theorem transposeF_validF {b : ℕ} {g : ℕ → ℕ → ℕ} (hg : ValidF b g) :
    ValidF b (transposeF g) := by
  obtain ⟨hrange, hrow, hcol, hbox⟩ := hg
  refine ⟨?_, ?_, ?_, ?_⟩
  · intro r c hr hc
    exact hrange c r hc hr
  · intro r c₁ c₂ hr h1 h2 heq
    exact hcol r c₁ c₂ hr h1 h2 heq
  · intro c r₁ r₂ hc h1 h2 heq
    exact hrow c r₁ r₂ hc h1 h2 heq
  · intro bi bj u₁ v₁ u₂ v₂ hbi hbj hu1 hv1 hu2 hv2 heq
    obtain ⟨hv, hu⟩ := hbox bj bi v₁ u₁ v₂ u₂ hbj hbi hv1 hu1 hv2 hu2 heq
    exact ⟨hu, hv⟩

theorem rowMapF_validF {b : ℕ} (hb : 0 < b) {p : ℕ → ℕ} {g : ℕ → ℕ → ℕ}
    (hmaps : ∀ r, r < b * b → p r < b * b)
    (hinj : ∀ r₁ r₂, r₁ < b * b → r₂ < b * b → p r₁ = p r₂ → r₁ = r₂)
    (hband : ∀ r₁ r₂, r₁ < b * b → r₂ < b * b → r₁ / b = r₂ / b →
      p r₁ / b = p r₂ / b)
    (hg : ValidF b g) : ValidF b (rowMapF p g) := by
  obtain ⟨hrange, hrow, hcol, hbox⟩ := hg
  refine ⟨?_, ?_, ?_, ?_⟩
  · intro r c hr hc
    exact hrange (p r) c (hmaps r hr) hc
  · intro r c₁ c₂ hr h1 h2 heq
    exact hrow (p r) c₁ c₂ (hmaps r hr) h1 h2 heq
  · intro c r₁ r₂ hc h1 h2 heq
    exact hinj r₁ r₂ h1 h2 (hcol c (p r₁) (p r₂) hc (hmaps r₁ h1) (hmaps r₂ h2) heq)
  · intro bi bj u₁ v₁ u₂ v₂ hbi hbj hu1 hv1 hu2 hv2 heq
    have hr1 : bi * b + u₁ < b * b := parts_lt hbi hu1
    have hr2 : bi * b + u₂ < b * b := parts_lt hbi hu2
    have hdiv : p (bi * b + u₁) / b = p (bi * b + u₂) / b := by
      apply hband _ _ hr1 hr2
      rw [parts_div hb hu1, parts_div hb hu2]
    have hBlt : p (bi * b + u₁) / b < b := div_lt_b hb (hmaps _ hr1)
    have hm1 : p (bi * b + u₁) % b < b := Nat.mod_lt _ hb
    have hm2 : p (bi * b + u₂) % b < b := Nat.mod_lt _ hb
    have e1 : p (bi * b + u₁) =
        p (bi * b + u₁) / b * b + p (bi * b + u₁) % b :=
      (Nat.div_add_mod' _ _).symm
    have e2 : p (bi * b + u₂) =
        p (bi * b + u₁) / b * b + p (bi * b + u₂) % b := by
      rw [hdiv]
      exact (Nat.div_add_mod' _ _).symm
    simp only [rowMapF] at heq
    rw [e1, e2] at heq
    obtain ⟨hmu, hv⟩ := hbox _ bj _ v₁ _ v₂ hBlt hbj hm1 hv1 hm2 hv2 heq
    have hpe : p (bi * b + u₁) = p (bi * b + u₂) := by
      calc p (bi * b + u₁)
          = b * (p (bi * b + u₁) / b) + p (bi * b + u₁) % b :=
            (Nat.div_add_mod _ _).symm
        _ = b * (p (bi * b + u₂) / b) + p (bi * b + u₂) % b := by rw [hdiv, hmu]
        _ = p (bi * b + u₂) := Nat.div_add_mod _ _
    have hre := hinj _ _ hr1 hr2 hpe
    exact ⟨Nat.add_left_cancel hre, hv⟩

theorem colMapF_validF {b : ℕ} (hb : 0 < b) {p : ℕ → ℕ} {g : ℕ → ℕ → ℕ}
    (hmaps : ∀ r, r < b * b → p r < b * b)
    (hinj : ∀ r₁ r₂, r₁ < b * b → r₂ < b * b → p r₁ = p r₂ → r₁ = r₂)
    (hband : ∀ r₁ r₂, r₁ < b * b → r₂ < b * b → r₁ / b = r₂ / b →
      p r₁ / b = p r₂ / b)
    (hg : ValidF b g) : ValidF b (colMapF p g) :=
  transposeF_validF (rowMapF_validF hb hmaps hinj hband (transposeF_validF hg))

theorem relabelF_validF {b : ℕ} {s : ℕ → ℕ} {g : ℕ → ℕ → ℕ}
    (hmem : ∀ v, 1 ≤ v → v ≤ b * b → 1 ≤ s v ∧ s v ≤ b * b)
    (hinj : ∀ v₁ v₂, 1 ≤ v₁ → v₁ ≤ b * b → 1 ≤ v₂ → v₂ ≤ b * b →
      s v₁ = s v₂ → v₁ = v₂)
    (hg : ValidF b g) : ValidF b (relabelF s g) := by
  obtain ⟨hrange, hrow, hcol, hbox⟩ := hg
  refine ⟨?_, ?_, ?_, ?_⟩
  · intro r c hr hc
    obtain ⟨h1, h2⟩ := hrange r c hr hc
    exact hmem _ h1 h2
  · intro r c₁ c₂ hr h1 h2 heq
    obtain ⟨a1, a2⟩ := hrange r c₁ hr h1
    obtain ⟨b1, b2⟩ := hrange r c₂ hr h2
    exact hrow r c₁ c₂ hr h1 h2 (hinj _ _ a1 a2 b1 b2 heq)
  · intro c r₁ r₂ hc h1 h2 heq
    obtain ⟨a1, a2⟩ := hrange r₁ c h1 hc
    obtain ⟨b1, b2⟩ := hrange r₂ c h2 hc
    exact hcol c r₁ r₂ hc h1 h2 (hinj _ _ a1 a2 b1 b2 heq)
  · intro bi bj u₁ v₁ u₂ v₂ hbi hbj hu1 hv1 hu2 hv2 heq
    have w1 : bi * b + u₁ < b * b := parts_lt hbi hu1
    have w2 : bj * b + v₁ < b * b := parts_lt hbj hv1
    have w3 : bi * b + u₂ < b * b := parts_lt hbi hu2
    have w4 : bj * b + v₂ < b * b := parts_lt hbj hv2
    obtain ⟨a1, a2⟩ := hrange _ _ w1 w2
    obtain ⟨b1, b2⟩ := hrange _ _ w3 w4
    exact hbox bi bj u₁ v₁ u₂ v₂ hbi hbj hu1 hv1 hu2 hv2 (hinj _ _ a1 a2 b1 b2 heq)

/-! ### The concrete index maps are band-compatible permutations -/

theorem innerRot_lt {b r : ℕ} (hb : 0 < b) (hr : r < b * b) :
    innerRot b r < b * b :=
  parts_lt (div_lt_b hb hr) (Nat.mod_lt _ hb)

theorem innerRot_div {b : ℕ} (hb : 0 < b) (r : ℕ) :
    innerRot b r / b = r / b :=
  parts_div hb (Nat.mod_lt _ hb)

theorem innerRot_inj {b r₁ r₂ : ℕ} (hb : 0 < b)
    (h : innerRot b r₁ = innerRot b r₂) : r₁ = r₂ := by
  unfold innerRot at h
  rw [Nat.mul_comm (r₁ / b) b, Nat.mul_comm (r₂ / b) b] at h
  obtain ⟨hdiv, hmod⟩ := digit_inj hb (Nat.mod_lt _ hb) (Nat.mod_lt _ hb) h
  rw [Nat.add_comm (r₁ % b) 1, Nat.add_comm (r₂ % b) 1] at hmod
  exact eq_of_div_mod_eq hdiv
    (mod_cancel_left (Nat.mod_lt _ hb) (Nat.mod_lt _ hb) hmod)

theorem bandRot_lt {b r : ℕ} (hb : 0 < b) (_hr : r < b * b) :
    bandRot b r < b * b :=
  parts_lt (Nat.mod_lt _ hb) (Nat.mod_lt _ hb)

theorem bandRot_div {b : ℕ} (hb : 0 < b) (r : ℕ) :
    bandRot b r / b = (r / b + 1) % b :=
  parts_div hb (Nat.mod_lt _ hb)

theorem bandRot_inj {b r₁ r₂ : ℕ} (hb : 0 < b) (h1 : r₁ < b * b) (h2 : r₂ < b * b)
    (h : bandRot b r₁ = bandRot b r₂) : r₁ = r₂ := by
  unfold bandRot at h
  rw [Nat.mul_comm ((r₁ / b + 1) % b) b, Nat.mul_comm ((r₂ / b + 1) % b) b] at h
  obtain ⟨hdiv, hmod⟩ := digit_inj hb (Nat.mod_lt _ hb) (Nat.mod_lt _ hb) h
  rw [Nat.add_comm (r₁ / b) 1, Nat.add_comm (r₂ / b) 1] at hdiv
  exact eq_of_div_mod_eq
    (mod_cancel_left (div_lt_b hb h1) (div_lt_b hb h2) hdiv) hmod

theorem revIdx_lt {n r : ℕ} (hn : 0 < n) : revIdx n r < n := by
  unfold revIdx
  omega

theorem revIdx_inj {n r₁ r₂ : ℕ} (h1 : r₁ < n) (h2 : r₂ < n)
    (h : revIdx n r₁ = revIdx n r₂) : r₁ = r₂ := by
  unfold revIdx at h
  omega

theorem revIdx_div {b r : ℕ} (hb : 0 < b) (hr : r < b * b) :
    revIdx (b * b) r / b = b - 1 - r / b := by
  have hq : r / b < b := div_lt_b hb hr
  have hs : r % b < b := Nat.mod_lt _ hb
  have hrec : b * (r / b) + r % b = r := Nat.div_add_mod r b
  generalize hqd : r / b = q at hq hrec ⊢
  generalize hsd : r % b = s at hs hrec
  obtain ⟨a, ha⟩ : ∃ a, b = q + 1 + a := ⟨b - 1 - q, by omega⟩
  obtain ⟨c, hc⟩ : ∃ c, b = s + 1 + c := ⟨b - 1 - s, by omega⟩
  have key : revIdx (b * b) r = a * b + c := by
    unfold revIdx
    have hbb : b * b = b * q + s + 1 + c + a * b := by
      calc b * b = b * (q + 1 + a) := by rw [← ha]
        _ = b * q + b + a * b := by ring
        _ = b * q + (s + 1 + c) + a * b := by rw [← hc]
        _ = b * q + s + 1 + c + a * b := by ring
    rw [hbb, ← hrec]
    generalize b * q = P
    generalize a * b = A
    omega
  rw [key, parts_div hb (show c < b by omega)]
  omega

theorem revIdx_band {b r₁ r₂ : ℕ} (hb : 0 < b) (h1 : r₁ < b * b)
    (h2 : r₂ < b * b) (h : r₁ / b = r₂ / b) :
    revIdx (b * b) r₁ / b = revIdx (b * b) r₂ / b := by
  rw [revIdx_div hb h1, revIdx_div hb h2, h]

theorem cycRelabel_range {n v : ℕ} (hn : 0 < n) :
    1 ≤ cycRelabel n v ∧ cycRelabel n v ≤ n := by
  unfold cycRelabel
  exact ⟨Nat.succ_le_succ (Nat.zero_le _), Nat.succ_le_of_lt (Nat.mod_lt _ hn)⟩

theorem cycRelabel_inj {n v₁ v₂ : ℕ} (hn : 0 < n) (h11 : 1 ≤ v₁) (h12 : v₁ ≤ n)
    (h21 : 1 ≤ v₂) (h22 : v₂ ≤ n) (h : cycRelabel n v₁ = cycRelabel n v₂) :
    v₁ = v₂ := by
  unfold cycRelabel at h
  have h' : v₁ % n = v₂ % n := Nat.add_right_cancel h
  rcases Nat.lt_or_ge v₁ n with hlt1 | hge1 <;>
    rcases Nat.lt_or_ge v₂ n with hlt2 | hge2
  · rwa [Nat.mod_eq_of_lt hlt1, Nat.mod_eq_of_lt hlt2] at h'
  · have hv2 : v₂ = n := Nat.le_antisymm h22 hge2
    subst hv2
    rw [Nat.mod_eq_of_lt hlt1, Nat.mod_self] at h'
    omega
  · have hv1 : v₁ = n := Nat.le_antisymm h12 hge1
    subst hv1
    rw [Nat.mod_self, Nat.mod_eq_of_lt hlt2] at h'
    omega
  · omega

/-! ### Every shuffle primitive, and every level's sequence, preserves
validity -/

theorem prim_validF {b : ℕ} (hb : 0 < b) (k : ℕ) {g : ℕ → ℕ → ℕ}
    (hg : ValidF b g) : ValidF b (prim b k g) := by
  have hn : 0 < b * b := Nat.mul_pos hb hb
  have hInner : ValidF b g → ValidF b (rowMapF (innerRot b) g) := fun h =>
    rowMapF_validF hb (fun r hr => innerRot_lt hb hr)
      (fun r₁ r₂ _ _ he => innerRot_inj hb he)
      (fun r₁ r₂ _ _ he => by rw [innerRot_div hb, innerRot_div hb, he]) h
  have hBand : ∀ {g' : ℕ → ℕ → ℕ}, ValidF b g' → ValidF b (rowMapF (bandRot b) g') :=
    fun h =>
    rowMapF_validF hb (fun r hr => bandRot_lt hb hr)
      (fun r₁ r₂ hr1 hr2 he => bandRot_inj hb hr1 hr2 he)
      (fun r₁ r₂ _ _ he => by rw [bandRot_div hb, bandRot_div hb, he]) h
  have hRev : ∀ {g' : ℕ → ℕ → ℕ}, ValidF b g' → ValidF b (rowMapF (revIdx (b * b)) g') :=
    fun h =>
    rowMapF_validF hb (fun r _ => revIdx_lt hn)
      (fun r₁ r₂ hr1 hr2 he => revIdx_inj hr1 hr2 he)
      (fun r₁ r₂ hr1 hr2 he => revIdx_band hb hr1 hr2 he) h
  match k with
  | 0 => exact hg
  | 1 => exact hInner hg
  | 2 =>
    show ValidF b (colMapF (innerRot b) g)
    exact colMapF_validF hb (fun r hr => innerRot_lt hb hr)
      (fun r₁ r₂ _ _ he => innerRot_inj hb he)
      (fun r₁ r₂ _ _ he => by rw [innerRot_div hb, innerRot_div hb, he]) hg
  | 3 => exact hBand hg
  | 4 =>
    show ValidF b (colMapF (bandRot b) g)
    exact colMapF_validF hb (fun r hr => bandRot_lt hb hr)
      (fun r₁ r₂ hr1 hr2 he => bandRot_inj hb hr1 hr2 he)
      (fun r₁ r₂ _ _ he => by rw [bandRot_div hb, bandRot_div hb, he]) hg
  | 5 => exact transposeF_validF hg
  | 6 =>
    show ValidF b (relabelF (cycRelabel (b * b)) g)
    exact relabelF_validF (fun v _ _ => cycRelabel_range hn)
      (fun v₁ v₂ a1 a2 b1 b2 he => cycRelabel_inj hn a1 a2 b1 b2 he) hg
  | 7 =>
    show ValidF b (colMapF (revIdx (b * b)) (transposeF g))
    exact colMapF_validF hb (fun r _ => revIdx_lt hn)
      (fun r₁ r₂ hr1 hr2 he => revIdx_inj hr1 hr2 he)
      (fun r₁ r₂ hr1 hr2 he => revIdx_band hb hr1 hr2 he)
      (transposeF_validF hg)
  | 8 =>
    show ValidF b (rowMapF (revIdx (b * b)) (colMapF (revIdx (b * b)) g))
    exact hRev (colMapF_validF hb (fun r _ => revIdx_lt hn)
      (fun r₁ r₂ hr1 hr2 he => revIdx_inj hr1 hr2 he)
      (fun r₁ r₂ hr1 hr2 he => revIdx_band hb hr1 hr2 he) hg)
  | 9 => exact hRev (transposeF_validF hg)
  | (k' + 10) => exact hg

theorem algo_shuffle_validF {b : ℕ} (hb : 0 < b) (level : ℕ) {g : ℕ → ℕ → ℕ}
    (hg : ValidF b g) : ValidF b (algo_shuffle b level g) := by
  induction level with
  | zero =>
    show ValidF b (List.foldl (fun h k => prim b k h) g (List.range 1))
    rw [show List.range 1 = [0] from rfl]
    exact prim_validF hb 0 hg
  | succ lv ih =>
    show ValidF b (List.foldl (fun h k => prim b k h) g (List.range (lv + 1 + 1)))
    rw [List.range_succ, List.foldl_append]
    exact prim_validF hb (lv + 1) ih

/-! ### The LERS2 construction is valid -/

theorem lers2F_validF {b : ℕ} (hb : 0 < b) : ValidF b (lers2F b) := by
  have hn : 0 < b * b := Nat.mul_pos hb hb
  refine ⟨?_, ?_, ?_, ?_⟩
  · intro r c hr hc
    unfold lers2F
    exact ⟨Nat.succ_le_succ (Nat.zero_le _), Nat.succ_le_of_lt (Nat.mod_lt _ hn)⟩
  · intro r c₁ c₂ hr h1 h2 heq
    unfold lers2F at heq
    exact mod_cancel_left h1 h2 (Nat.add_right_cancel heq)
  · intro c r₁ r₂ hc h1 h2 heq
    unfold lers2F at heq
    have heq' := Nat.add_right_cancel heq
    rw [Nat.add_comm (b * (r₁ % b) + r₁ / b) c,
      Nat.add_comm (b * (r₂ % b) + r₂ / b) c] at heq'
    have hφ1 : b * (r₁ % b) + r₁ / b < b * b :=
      parts_lt' (Nat.mod_lt _ hb) (div_lt_b hb h1)
    have hφ2 : b * (r₂ % b) + r₂ / b < b * b :=
      parts_lt' (Nat.mod_lt _ hb) (div_lt_b hb h2)
    obtain ⟨hs, hq⟩ := digit_inj hb (div_lt_b hb h1) (div_lt_b hb h2)
      (mod_cancel_left hφ1 hφ2 heq')
    exact eq_of_div_mod_eq hq hs
  · intro bi bj u₁ v₁ u₂ v₂ hbi hbj hu1 hv1 hu2 hv2 heq
    unfold lers2F at heq
    rw [parts_mod bi hu1, parts_mod bi hu2, parts_div hb hu1,
      parts_div hb hu2] at heq
    have heq' := Nat.add_right_cancel heq
    have e : ∀ u v : ℕ, b * u + bi + (bj * b + v) = bi + bj * b + (b * u + v) := by
      intro u v
      ring
    rw [e u₁ v₁, e u₂ v₂] at heq'
    have h1 : b * u₁ + v₁ < b * b := parts_lt' hu1 hv1
    have h2 : b * u₂ + v₂ < b * b := parts_lt' hu2 hv2
    exact digit_inj hb hv1 hv2 (mod_cancel_left h1 h2 heq')

/-! ### From the validity invariant to the GridVerifier check -/

theorem getD_range_map {α : Type} {n j : ℕ} (f : ℕ → α) (d : α) (hj : j < n) :
    ((List.range n).map f).getD j d = f j := by
  rw [List.getD_eq_getElem _ d (by simpa using hj)]
  simp

theorem unit_ok_of_inj (n : ℕ) (F : ℕ → ℕ)
    (hrange : ∀ t, t < n → 1 ≤ F t ∧ F t ≤ n)
    (hinj : ∀ t₁ t₂, t₁ < n → t₂ < n → F t₁ = F t₂ → t₁ = t₂) :
    unit_ok n ((List.range n).map F) = true := by
  have hfil : nonEmptyVals ((List.range n).map F) = (List.range n).map F := by
    apply List.filter_eq_self.mpr
    intro v hv
    simp only [List.mem_map, List.mem_range] at hv
    obtain ⟨t, ht, rfl⟩ := hv
    have h1 := (hrange t ht).1
    simp only [decide_eq_true_eq]
    omega
  have hnodup : ((List.range n).map F).Nodup := by
    refine (List.nodup_range n).map_on ?_
    intro t₁ h₁ t₂ h₂ heq
    exact hinj t₁ t₂ (List.mem_range.mp h₁) (List.mem_range.mp h₂) heq
  have hall : ((List.range n).map F).all
      (fun v => decide (1 ≤ v) && decide (v ≤ n)) = true := by
    rw [List.all_eq_true]
    intro v hv
    simp only [List.mem_map, List.mem_range] at hv
    obtain ⟨t, ht, rfl⟩ := hv
    have h := hrange t ht
    simp [h.1, h.2]
  unfold unit_ok
  rw [hfil, decide_eq_true hnodup, hall]
  simp

theorem toLists_length (n : ℕ) (g : ℕ → ℕ → ℕ) : (toLists n g).length = n := by
  simp [toLists]

theorem toLists_dims_ok (n : ℕ) (g : ℕ → ℕ → ℕ) :
    grid_dims_ok (toLists n g) = true := by
  unfold grid_dims_ok toLists
  rw [List.all_eq_true]
  intro row hrow
  simp only [List.mem_map, List.mem_range] at hrow
  obtain ⟨r, hr, rfl⟩ := hrow
  simp

theorem is_correct_toLists {b : ℕ} (hb : 0 < b) {g : ℕ → ℕ → ℕ}
    (hg : ValidF b g) : is_correct_grid (toLists (b * b) g) = .ok true := by
  obtain ⟨hrange, hrow, hcol, hbox⟩ := hg
  have hlen : (toLists (b * b) g).length = b * b := toLists_length _ _
  unfold is_correct_grid
  rw [if_pos (toLists_dims_ok (b * b) g), hlen]
  refine congrArg Except.ok ?_
  rw [List.all_eq_true]
  intro vs hvs
  unfold grid_units at hvs
  rcases List.mem_append.mp hvs with hvs2 | hboxes
  · rcases List.mem_append.mp hvs2 with hrows | hcols
    · unfold toLists at hrows
      simp only [List.mem_map, List.mem_range] at hrows
      obtain ⟨r, hr, rfl⟩ := hrows
      exact unit_ok_of_inj _ _ (fun c hc => hrange r c hr hc)
        (fun c₁ c₂ h1 h2 he => hrow r c₁ c₂ hr h1 h2 he)
    · unfold grid_cols at hcols
      rw [hlen] at hcols
      simp only [List.mem_map, List.mem_range] at hcols
      obtain ⟨j, hj, rfl⟩ := hcols
      have hcl : (toLists (b * b) g).map (fun row => row.getD j 0) =
          (List.range (b * b)).map (fun r => g r j) := by
        unfold toLists
        rw [List.map_map]
        apply List.map_congr_left
        intro r _
        simp only [Function.comp_apply]
        exact getD_range_map _ _ hj
      rw [hcl]
      exact unit_ok_of_inj _ _ (fun r hr => hrange r j hr hj)
        (fun r₁ r₂ h1 h2 he => hcol j r₁ r₂ hj h1 h2 he)
  · unfold grid_boxes at hboxes
    rw [hlen, int_sqrt_sq] at hboxes
    simp only [List.mem_map, List.mem_range] at hboxes
    obtain ⟨k, hk, rfl⟩ := hboxes
    have hkd : k / b < b := div_lt_b hb hk
    have hkm : k % b < b := Nat.mod_lt _ hb
    have hbx : (List.range (b * b)).map (fun t =>
          ((toLists (b * b) g).getD (k / b * b + t / b) []).getD
            (k % b * b + t % b) 0) =
        (List.range (b * b)).map (fun t =>
          g (k / b * b + t / b) (k % b * b + t % b)) := by
      apply List.map_congr_left
      intro t ht
      have htd : t / b < b := div_lt_b hb (List.mem_range.mp ht)
      have htm : t % b < b := Nat.mod_lt _ hb
      have hri : k / b * b + t / b < b * b := parts_lt hkd htd
      have hci : k % b * b + t % b < b * b := parts_lt hkm htm
      unfold toLists
      rw [getD_range_map _ _ hri, getD_range_map _ _ hci]
    rw [hbx]
    apply unit_ok_of_inj
    · intro t ht
      exact hrange _ _ (parts_lt hkd (div_lt_b hb ht))
        (parts_lt hkm (Nat.mod_lt _ hb))
    · intro t₁ t₂ h1 h2 he
      obtain ⟨hu, hv⟩ := hbox (k / b) (k % b) (t₁ / b) (t₁ % b) (t₂ / b) (t₂ % b)
        hkd hkm (div_lt_b hb h1) (Nat.mod_lt _ hb) (div_lt_b hb h2)
        (Nat.mod_lt _ hb) he
      exact eq_of_div_mod_eq hu hv

/-! ### Matrix-level lemmas -/

theorem toCells_getD {n i : ℕ} (g : ℕ → ℕ → ℕ) (hi : i < n * n) :
    (toCells n g).getD i defaultCell =
      ⟨i / n, i % n, g (i / n) (i % n), true⟩ := by
  unfold toCells
  exact getD_range_map _ _ hi

theorem values_grid_mk (b : ℕ) (hb : 0 < b) (g : ℕ → ℕ → ℕ) :
    (SudokuMatrix.mk b (toCells (b * b) g)).values_grid = toLists (b * b) g := by
  simp only [SudokuMatrix.values_grid, SudokuMatrix.columns, toLists]
  apply List.map_congr_left
  intro r hr
  apply List.map_congr_left
  intro c hc
  rw [List.mem_range] at hr hc
  rw [toCells_getD g (parts_lt hr hc)]
  rw [parts_div (Nat.mul_pos hb hb) hc, parts_mod r hc]

theorem generate_box_size (m : SudokuMatrix) (level : ℤ) :
    ((m.generate level).matrix).box_size = m.box_size := by
  unfold SudokuMatrix.generate
  split <;> rfl

theorem generate_ok (m : SudokuMatrix) (level : ℤ) (hlv : 0 ≤ level ∧ level ≤ 9) :
    m.generate level =
      ⟨⟨m.box_size,
        toCells m.columns (algo_shuffle m.box_size level.toNat (lers2F m.box_size))⟩,
        none⟩ := by
  unfold SudokuMatrix.generate
  rw [if_pos hlv]

theorem generate_values_correct (m : SudokuMatrix) (hb : 0 < m.box_size)
    (level : ℤ) (hlv : 0 ≤ level ∧ level ≤ 9) :
    is_correct_grid ((m.generate level).matrix.values_grid) = .ok true := by
  rw [generate_ok m level hlv]
  show is_correct_grid
    (SudokuMatrix.values_grid
      ⟨m.box_size,
        toCells (m.box_size * m.box_size)
          (algo_shuffle m.box_size level.toNat (lers2F m.box_size))⟩) = .ok true
  rw [values_grid_mk m.box_size hb]
  exact is_correct_toLists hb (algo_shuffle_validF hb _ (lers2F_validF hb))

theorem verify_correct_of_grid {m : SudokuMatrix}
    (h : is_correct_grid m.values_grid = .ok true) : m.verify_correct = true := by
  unfold SudokuMatrix.verify_correct
  rw [h]

theorem setRevealed_getD_value (keep : ℕ → Bool) (l : List Cell) (i j : ℕ) :
    ((setRevealed keep i l).getD j defaultCell).value =
      (l.getD j defaultCell).value := by
  induction l generalizing i j with
  | nil => rfl
  | cons c rest ih =>
    cases j with
    | zero => rfl
    | succ j' =>
      show ((setRevealed keep (i + 1) rest).getD j' defaultCell).value =
        (rest.getD j' defaultCell).value
      exact ih (i + 1) j'

theorem setRevealed_map_rcv (keep : ℕ → Bool) (l : List Cell) (i : ℕ) :
    (setRevealed keep i l).map (fun c => (c.row, c.column, c.value)) =
      l.map (fun c => (c.row, c.column, c.value)) := by
  induction l generalizing i with
  | nil => rfl
  | cons c rest ih => simp [setRevealed, ih]

theorem reveal_values_grid (m : SudokuMatrix) (keep : ℕ → Bool) :
    (m.reveal keep).values_grid = m.values_grid := by
  unfold SudokuMatrix.reveal SudokuMatrix.values_grid SudokuMatrix.columns
  apply List.map_congr_left
  intro r _
  apply List.map_congr_left
  intro c _
  exact setRevealed_getD_value keep m.cells 0 _

/-! ## The claims -/

/-- Claim C1: for every supported side length N = b * b (b ≥ 2) and every
shuffle level in [0, 9], generate followed by verify_correct returns true,
across arbitrarily many (k + 1 ≥ 1, so in particular ≥ 1000) repeated
generations; and the shuffle sequence of the level maps every valid grid
to a valid grid. -/
theorem claim_C1_generate_always_verifies (b : ℕ) (hb : 2 ≤ b) (level : ℤ)
    (hlv : 0 ≤ level ∧ level ≤ 9) (k : ℕ) :
    ((fun m => (SudokuMatrix.generate m level).matrix)^[k + 1]
        (SudokuMatrix.new b)).verify_correct = true ∧
    (∀ g, ValidF b g → ValidF b (algo_shuffle b level.toNat g)) := by
  have hb0 : 0 < b := by omega
  constructor
  · have hbox : ∀ j, ((fun m => (SudokuMatrix.generate m level).matrix)^[j]
        (SudokuMatrix.new b)).box_size = b := by
      intro j
      induction j with
      | zero => rfl
      | succ j ih =>
        simp only [Function.iterate_succ_apply']
        rw [generate_box_size]
        exact ih
    rw [Function.iterate_succ_apply']
    apply verify_correct_of_grid
    exact generate_values_correct _ (by rw [hbox k]; omega) level hlv
  · intro g hg
    exact algo_shuffle_validF hb0 _ hg

theorem claim_C1_witness :
    ((fun m => (SudokuMatrix.generate m 2).matrix)^[0 + 1]
        (SudokuMatrix.new 2)).verify_correct = true ∧
    (∀ g, ValidF 2 g → ValidF 2 (algo_shuffle 2 (2 : ℤ).toNat g)) :=
  claim_C1_generate_always_verifies 2 (by decide) 2 (by decide) 0

/-- Claim C2 counterexample: the euler cyclic Latin square of side 4
violates the box uniqueness constraint, so GridVerifier rejects it —
refuting the claim that euler_latin_square passes for every supported
side. -/
theorem claim_C2_counterexample :
    is_correct_grid (euler_latin_square 4) = .ok false := by
  unfold is_correct_grid
  rw [if_pos (by decide)]
  exact congrArg Except.ok (by decide)

/-- Claim C2 (amended): lers2_sudoku_grid passes is_correct_grid for
every supported side n = b * b (b ≥ 2); euler_latin_square, however, is
rejected by is_correct_grid, whose check includes the box uniqueness
constraint that the cyclic construction violates (shown at n = 9; the
counterexample shows n = 4). -/
theorem claim_C2_amended_builders (b : ℕ) (hb : 2 ≤ b) :
    is_correct_grid (lers2_sudoku_grid (b * b)) = .ok true ∧
    is_correct_grid (euler_latin_square 9) = .ok false := by
  constructor
  · unfold lers2_sudoku_grid
    rw [int_sqrt_sq]
    exact is_correct_toLists (by omega) (lers2F_validF (by omega))
  · unfold is_correct_grid
    rw [if_pos (by decide)]
    exact congrArg Except.ok (by decide)

theorem claim_C2_witness :
    is_correct_grid (lers2_sudoku_grid (3 * 3)) = .ok true ∧
    is_correct_grid (euler_latin_square 9) = .ok false :=
  claim_C2_amended_builders 3 (by decide)

/-- Claim C3: after a successful generate and after any direct shuffle
operation, the cell stored at any linear index i carries coordinates
satisfying row * columns + column = i. -/
theorem claim_C3_cell_locations (m : SudokuMatrix) (level : ℤ)
    (hlv : 0 ≤ level ∧ level ≤ 9) (k i : ℕ)
    (hi : i < m.columns * m.columns) :
    (((m.generate level).matrix.cells.getD i defaultCell).row *
        (m.generate level).matrix.columns +
      ((m.generate level).matrix.cells.getD i defaultCell).column = i) ∧
    (((m.apply_shuffle k).cells.getD i defaultCell).row *
        (m.apply_shuffle k).columns +
      ((m.apply_shuffle k).cells.getD i defaultCell).column = i) := by
  have key : ∀ g : ℕ → ℕ → ℕ,
      ((toCells m.columns g).getD i defaultCell).row * m.columns +
        ((toCells m.columns g).getD i defaultCell).column = i := by
    intro g
    rw [toCells_getD g hi]
    exact Nat.div_add_mod' i m.columns
  constructor
  · rw [generate_ok m level hlv]
    exact key _
  · exact key _

theorem claim_C3_witness :
    ((((SudokuMatrix.new 2).generate 0).matrix.cells.getD 5 defaultCell).row *
        ((SudokuMatrix.new 2).generate 0).matrix.columns +
      (((SudokuMatrix.new 2).generate 0).matrix.cells.getD 5
          defaultCell).column = 5) ∧
    ((((SudokuMatrix.new 2).apply_shuffle 1).cells.getD 5 defaultCell).row *
        ((SudokuMatrix.new 2).apply_shuffle 1).columns +
      (((SudokuMatrix.new 2).apply_shuffle 1).cells.getD 5
          defaultCell).column = 5) :=
  claim_C3_cell_locations (SudokuMatrix.new 2) 0 (by decide) 1 5 (by decide)

/-- Claim C4: generate with a level outside [0, 9] (for example 10 or -1)
raises ConfigurationError and leaves the matrix state exactly as it was
before the call. -/
theorem claim_C4_generate_bad_level (m : SudokuMatrix) :
    (m.generate 10).error = some .badLevel ∧ (m.generate 10).matrix = m ∧
    (m.generate (-1)).error = some .badLevel ∧ (m.generate (-1)).matrix = m ∧
    (∀ level : ℤ, level < 0 ∨ 9 < level →
      m.generate level = ⟨m, some .badLevel⟩) := by
  have h10 : m.generate 10 = ⟨m, some .badLevel⟩ := by
    unfold SudokuMatrix.generate
    rw [if_neg (by omega)]
  have hm1 : m.generate (-1) = ⟨m, some .badLevel⟩ := by
    unfold SudokuMatrix.generate
    rw [if_neg (by omega)]
  refine ⟨by rw [h10], by rw [h10], by rw [hm1], by rw [hm1], ?_⟩
  intro level hl
  unfold SudokuMatrix.generate
  rw [if_neg (by omega)]

theorem claim_C4_witness :
    (SudokuMatrix.new 3).generate 42 = ⟨SudokuMatrix.new 3, some .badLevel⟩ :=
  (claim_C4_generate_bad_level (SudokuMatrix.new 3)).2.2.2.2 42 (by omega)

/-- Claim C5: reveal modifies only the revealed flags — coordinates and
stored values are untouched — and after reveal the grid of underlying
values still passes is_correct_grid, and verify_correct still returns
true. -/
theorem claim_C5_reveal_nondestructive (m : SudokuMatrix)
    (hb : 2 ≤ m.box_size) (level : ℤ) (hlv : 0 ≤ level ∧ level ≤ 9)
    (keep : ℕ → Bool) :
    (((m.generate level).matrix.reveal keep).cells.map
        (fun c => (c.row, c.column, c.value)) =
      (m.generate level).matrix.cells.map
        (fun c => (c.row, c.column, c.value))) ∧
    is_correct_grid (((m.generate level).matrix.reveal keep).values_grid) =
      .ok true ∧
    ((m.generate level).matrix.reveal keep).verify_correct = true := by
  have hg := generate_values_correct m (by omega) level hlv
  have hvg := reveal_values_grid ((m.generate level).matrix) keep
  refine ⟨?_, ?_, ?_⟩
  · exact setRevealed_map_rcv keep _ 0
  · rw [hvg]
    exact hg
  · exact verify_correct_of_grid (by rw [hvg]; exact hg)

theorem claim_C5_witness :
    ((((SudokuMatrix.new 2).generate 1).matrix.reveal (fun _ => false)).cells.map
        (fun c => (c.row, c.column, c.value)) =
      ((SudokuMatrix.new 2).generate 1).matrix.cells.map
        (fun c => (c.row, c.column, c.value))) ∧
    is_correct_grid ((((SudokuMatrix.new 2).generate 1).matrix.reveal
        (fun _ => false)).values_grid) = .ok true ∧
    (((SudokuMatrix.new 2).generate 1).matrix.reveal
        (fun _ => false)).verify_correct = true :=
  claim_C5_reveal_nondestructive (SudokuMatrix.new 2) (by decide) 1 (by decide)
    (fun _ => false)

/-- Claim C6: CellIndex is a pure bijection between linear positions and
coordinates — the two directions round-trip on every in-range input, and
out-of-range input fails with a RangeError. -/
theorem claim_C6_cell_index_roundtrip (columns i row column : ℕ)
    (hi : i < columns * columns) (hr : row < columns) (hc : column < columns) :
    cell_index_coords columns i = .ok (i / columns, i % columns) ∧
    cell_index_linear columns (i / columns) (i % columns) = .ok i ∧
    cell_index_linear columns row column = .ok (row * columns + column) ∧
    cell_index_coords columns (row * columns + column) = .ok (row, column) ∧
    (∀ j, columns * columns ≤ j →
      cell_index_coords columns j = .error .outOfRange) ∧
    (∀ r c, columns ≤ r ∨ columns ≤ c →
      cell_index_linear columns r c = .error .outOfRange) := by
  have hcpos : 0 < columns := by
    rcases Nat.eq_zero_or_pos columns with h | h
    · exfalso
      subst h
      omega
    · exact h
  refine ⟨?_, ?_, ?_, ?_, ?_, ?_⟩
  · unfold cell_index_coords
    rw [if_pos hi]
  · unfold cell_index_linear
    rw [if_pos ⟨div_lt_b hcpos hi, Nat.mod_lt _ hcpos⟩, Nat.div_add_mod' i columns]
  · unfold cell_index_linear
    rw [if_pos ⟨hr, hc⟩]
  · unfold cell_index_coords
    rw [if_pos (parts_lt hr hc), parts_div hcpos hc, parts_mod row hc]
  · intro j hj
    unfold cell_index_coords
    rw [if_neg (Nat.not_lt.mpr hj)]
  · intro r c hrc
    unfold cell_index_linear
    rw [if_neg (by rintro ⟨h1, h2⟩; omega)]

theorem claim_C6_witness :
    cell_index_coords 4 7 = .ok (7 / 4, 7 % 4) ∧
    cell_index_linear 4 (7 / 4) (7 % 4) = .ok 7 ∧
    cell_index_linear 4 2 3 = .ok (2 * 4 + 3) ∧
    cell_index_coords 4 (2 * 4 + 3) = .ok (2, 3) ∧
    (∀ j, 4 * 4 ≤ j → cell_index_coords 4 j = .error .outOfRange) ∧
    (∀ r c, 4 ≤ r ∨ 4 ≤ c → cell_index_linear 4 r c = .error .outOfRange) :=
  claim_C6_cell_index_roundtrip 4 7 2 3 (by decide) (by decide) (by decide)

/-- Claim C7: is_correct_grid raises only on inconsistent dimensions; on
any well-formed grid a duplicated non-empty value in some row, column or
box makes it return false (never raise); and a passing verification means
every unit's non-empty subset is duplicate-free (units with empty cells
are checked only over that subset). -/
theorem claim_C7_verifier_error_behavior (g : List (List ℕ)) :
    ((∃ e, is_correct_grid g = .error e) ↔ grid_dims_ok g = false) ∧
    (grid_dims_ok g = true → ∀ vs ∈ grid_units g,
      ¬ (nonEmptyVals vs).Nodup → is_correct_grid g = .ok false) ∧
    (∀ vs ∈ grid_units g,
      is_correct_grid g = .ok true → (nonEmptyVals vs).Nodup) := by
  cases hdg : grid_dims_ok g with
  | false =>
    refine ⟨?_, ?_, ?_⟩
    · simp [is_correct_grid, hdg]
    · intro hd
      exact absurd hd (by simp [hdg])
    · intro vs hvs hok
      simp [is_correct_grid, hdg] at hok
  | true =>
    refine ⟨?_, ?_, ?_⟩
    · simp [is_correct_grid, hdg]
    · intro _ vs hvs hnd
      unfold is_correct_grid
      rw [if_pos hdg]
      refine congrArg Except.ok ?_
      cases hall : (grid_units g).all (unit_ok g.length) with
      | false => rfl
      | true =>
        exfalso
        rw [List.all_eq_true] at hall
        have hu := hall vs hvs
        unfold unit_ok at hu
        rw [Bool.and_eq_true] at hu
        exact hnd (of_decide_eq_true hu.1)
    · intro vs hvs hok
      unfold is_correct_grid at hok
      rw [if_pos hdg] at hok
      have hall : (grid_units g).all (unit_ok g.length) = true := by
        injection hok
      rw [List.all_eq_true] at hall
      have hu := hall vs hvs
      unfold unit_ok at hu
      rw [Bool.and_eq_true] at hu
      exact of_decide_eq_true hu.1

theorem claim_C7_witness :
    is_correct_grid [[1, 1], [2, 2]] = .ok false :=
  (claim_C7_verifier_error_behavior [[1, 1], [2, 2]]).2.1 (by rfl)
    [1, 1] (by decide) (by decide)

/-- Claim C8 counterexample: assigning -1/2 to friction stores 1/2, not
0.0 — the setter computes min(1, abs(value)), so a negative value is not
clamped to 0 as the claim states. -/
theorem claim_C8_counterexample :
    (phys0.set_friction (-(1 / 2))).friction = 1 / 2 ∧ ((1 : ℚ) / 2) ≠ 0 := by
  constructor
  · show set_friction_val (-(1 / 2)) = 1 / 2
    unfold set_friction_val
    rw [abs_neg, abs_of_nonneg (by norm_num : (0 : ℚ) ≤ 1 / 2)]
    exact min_eq_right (by norm_num)
  · norm_num

/-- Claim C8 (amended): the friction setter stores min(1, abs(value)), so
the stored value always lies in [0, 1]; values already in [0, 1] are
stored unchanged and values above 1 are stored as 1, but a value below 0
is stored as its absolute value clamped to 1 (for example -1/2 is stored
as 1/2), not as 0. -/
theorem claim_C8_amended_friction_clamp (p : Physics) (v : ℚ) :
    0 ≤ (p.set_friction v).friction ∧ (p.set_friction v).friction ≤ 1 ∧
    (0 ≤ v → v ≤ 1 → (p.set_friction v).friction = v) ∧
    (1 < v → (p.set_friction v).friction = 1) ∧
    (v < -1 → (p.set_friction v).friction = 1) ∧
    (-1 ≤ v → v ≤ 0 → (p.set_friction v).friction = -v) := by
  simp only [Physics.set_friction, set_friction_val]
  refine ⟨?_, ?_, ?_, ?_, ?_, ?_⟩
  · exact le_min (by norm_num) (abs_nonneg v)
  · exact min_le_left _ _
  · intro h0 h1
    rw [abs_of_nonneg h0, min_eq_right h1]
  · intro h
    rw [abs_of_nonneg (by linarith), min_eq_left (by linarith)]
  · intro h
    rw [abs_of_neg (by linarith), min_eq_left (by linarith)]
  · intro h1 h2
    rw [abs_of_nonpos h2, min_eq_right (by linarith)]

theorem claim_C8_witness :
    (phys0.set_friction (-(3 / 4))).friction = -(-(3 / 4)) :=
  (claim_C8_amended_friction_clamp phys0 (-(3 / 4))).2.2.2.2.2
    (by norm_num) (by norm_num)

/-- Claim C9: the stored update callback is always callable — the
constructor and every assignment keep a callable value and replace any
non-callable one with a no-op — so invoking the stored callback never
fails, for every input value. -/
theorem claim_C9_callback_always_callable (p : Physics) (v : PyValue)
    (g f : Option ℚ) (ov : Option PyValue) (dx dy dt : ℚ) :
    ((p.set_update_callback v).update_callback).callable = true ∧
    (∃ q, ((p.set_update_callback v).update_callback).invoke dx dy dt = .ok q) ∧
    ((Physics.init g f ov).update_callback).callable = true ∧
    (∃ q, ((Physics.init g f ov).update_callback).invoke dx dy dt = .ok q) := by
  have hset : ∀ (p' : Physics) (w : PyValue),
      ((p'.set_update_callback w).update_callback).callable = true ∧
      (∃ q, ((p'.set_update_callback w).update_callback).invoke dx dy dt = .ok q) := by
    intro p' w
    cases w with
    | funcVal fn => exact ⟨rfl, ⟨fn dx dy dt, rfl⟩⟩
    | noneVal => exact ⟨rfl, ⟨0, rfl⟩⟩
    | numVal q => exact ⟨rfl, ⟨0, rfl⟩⟩
    | strVal s => exact ⟨rfl, ⟨0, rfl⟩⟩
  exact ⟨(hset p v).1, (hset p v).2, (hset _ _).1, (hset _ _).2⟩

/-- Claim C10: every framerate assignment clamps int(value) into [1, 20]
and maintains delay = 1000 / framerate (floor division, milliseconds)
and dt = delay / 1000 (seconds). -/
theorem claim_C10_framerate_invariant (p : Physics) (v : ℚ) :
    1 ≤ (p.set_framerate v).framerate ∧ (p.set_framerate v).framerate ≤ 20 ∧
    ((p.set_framerate v).framerate : ℤ) = max 1 (min 20 (pyInt v)) ∧
    (p.set_framerate v).delay = 1000 / (p.set_framerate v).framerate ∧
    (p.set_framerate v).dt = ((p.set_framerate v).delay : ℚ) / 1000 := by
  refine ⟨?_, ?_, ?_, ?_, ?_⟩
  · show 1 ≤ set_framerate_val v
    unfold set_framerate_val
    omega
  · show set_framerate_val v ≤ 20
    unfold set_framerate_val
    omega
  · show ((set_framerate_val v : ℕ) : ℤ) = max 1 (min 20 (pyInt v))
    unfold set_framerate_val
    omega
  · rfl
  · rfl

end TkGame
